import Mathlib

/-!
Shallow embedding of the asynchronous entity-cloning pipeline of the
product-catalog repository: the clone-user-products edge function (its
request handler, processBatch loop and self-chaining continuation), the
generateUniqueSlug helper of the copy-products-between-users function, the
un-ordered page query, and the eager promise creation of the image
replication loop.  Machine integers are modelled as Nat (the counters
involved are small and non-negative in the source), database rows as plain
structures or field maps, and each fallible external call as an explicit
outcome parameter.
-/

namespace CloneSpec

/-- Job status values persisted in the status column of the clone_jobs
table. -/
inductive JobStatus
  | pending
  | processing
  | completed
  | failed
deriving DecidableEq, Repr

/-- Fields of one clone_jobs update call; a field that is none is omitted
from the update payload (the source never writes an explicit null to these
columns). -/
structure JobUpdate where
  status : Option JobStatus
  processed_count : Option Nat
  completed_at : Option Nat
deriving DecidableEq, Repr

/-- The clone_jobs row state the claims observe: status, processed_count
and the optional completed_at timestamp. -/
structure CloneJob where
  status : JobStatus
  processed_count : Nat
  completed_at : Option Nat
deriving DecidableEq, Repr

/-- Applying one partial update to a job row: a present field overwrites
the column, an absent field leaves it unchanged. -/
def applyUpdate (j : CloneJob) (u : JobUpdate) : CloneJob :=
  { status := u.status.getD j.status,
    processed_count := u.processed_count.getD j.processed_count,
    completed_at := match u.completed_at with
      | some t => some t
      | none => j.completed_at }

/-- Applying a sequence of updates in order. -/
def applyUpdates (j : CloneJob) (us : List JobUpdate) : CloneJob :=
  us.foldl applyUpdate j

/-- Outcome of the body of the per-product loop of processBatch for one
product: the insert succeeds (the image work that follows swallows its own
failures), the insert returns an error (the productError branch), or the
body throws before completing (the per-item catch branch). -/
inductive ItemOutcome
  | ok
  | insertError
  | thrown
deriving DecidableEq, Repr

/-- The per-product loop of processBatch: left-to-right over the page,
accumulating successCount and errorCount; an insert error or a thrown
exception increments errorCount and the loop continues with the next
product. -/
def processBatchLoop : Nat × Nat → List ItemOutcome → Nat × Nat
  | acc, [] => acc
  | acc, o :: rest =>
    match o with
    | .ok => processBatchLoop (acc.1 + 1, acc.2) rest
    | .insertError => processBatchLoop (acc.1, acc.2 + 1) rest
    | .thrown => processBatchLoop (acc.1, acc.2 + 1) rest

/-- processBatch of clone-user-products: returns the pair
(successCount, errorCount) for the given page of per-product outcomes. -/
def processBatch (page : List ItemOutcome) : Nat × Nat :=
  processBatchLoop (0, 0) page

/-- Observable effects of one clone-user-products invocation: the
clone_jobs updates it issues, in order, and the offset it passes to the
next self-invocation when it dispatches one.  The dispatch carries the
same limit and the source awaits its HTTP response (await fetch, inside a
try/catch) before returning the worker's own response; handlerTrace
records that program order, while this structure records only which
updates and which dispatch occur. -/
structure HandlerResult where
  updates : List JobUpdate
  invokesNext : Option Nat
deriving DecidableEq, Repr

/-- The clone-user-products request handler after input validation, given
the result of the page fetch (an error makes the handler throw before any
job update), the request offset and limit, the processed_count read back
from the job row (none models a missing row, read as 0 by the source
fallback), and the current timestamp.  On an empty page it marks the job
completed; otherwise it sets status processing, runs processBatch, writes
the read count plus this page's successes, and either dispatches the next
invocation at offset + limit and awaits its response (full page) or marks
the job completed (short page). -/
def handler (fetched : Except Unit (List ItemOutcome)) (offset limit : Nat)
    (prevProcessed : Option Nat) (now : Nat) : HandlerResult :=
  match fetched with
  | .error _ => { updates := [], invokesNext := none }
  | .ok page =>
    if page.isEmpty then
      { updates := [⟨some .completed, none, some now⟩], invokesNext := none }
    else
      let counts := processBatch page
      let newProcessed := prevProcessed.getD 0 + counts.1
      let baseUpdates : List JobUpdate :=
        [⟨some .processing, none, none⟩, ⟨none, some newProcessed, none⟩]
      if page.length = limit then
        { updates := baseUpdates, invokesNext := some (offset + limit) }
      else
        { updates := baseUpdates ++ [⟨some .completed, none, some now⟩],
          invokesNext := none }

/-- One externally visible action of a clone-user-products invocation, in
program order: a clone_jobs update call, the awaited fetch of the next
self-invocation (the await at the continuation dispatch — the promise
resolves only once the invoked function has returned its own HTTP
response, so the worker blocks there), or the worker returning its own
HTTP response. -/
inductive WorkerAction
  | jobUpdate (u : JobUpdate)
  | awaitContinuation (offset : Nat)
  | respond
deriving DecidableEq, Repr

/-- Program-order action trace of one clone-user-products invocation: the
job updates in source order, then on a full page the awaited continuation
dispatch, and last the worker's own response; on a short or empty page the
completion update is the final write before the response, and a fetch
error throws to the catch block, which responds without any job update. -/
def handlerTrace (fetched : Except Unit (List ItemOutcome)) (offset limit : Nat)
    (prevProcessed : Option Nat) (now : Nat) : List WorkerAction :=
  match fetched with
  | .error _ => [WorkerAction.respond]
  | .ok page =>
    if page.isEmpty then
      [WorkerAction.jobUpdate ⟨some JobStatus.completed, none, some now⟩,
       WorkerAction.respond]
    else
      let counts := processBatch page
      let newProcessed := prevProcessed.getD 0 + counts.1
      let pre : List WorkerAction :=
        [WorkerAction.jobUpdate ⟨some JobStatus.processing, none, none⟩,
         WorkerAction.jobUpdate ⟨none, some newProcessed, none⟩]
      if page.length = limit then
        pre ++ [WorkerAction.awaitContinuation (offset + limit),
          WorkerAction.respond]
      else
        pre ++ [WorkerAction.jobUpdate ⟨some JobStatus.completed, none, some now⟩,
          WorkerAction.respond]

/-- One full self-chaining run starting at the given offset: each
invocation fetches the page range [offset, offset + limit - 1] of the
source items, i.e. (items.drop offset).take limit, reads the current
processed_count from the job row, applies the handler's updates, and, when
the handler dispatches a continuation, recurses at offset + limit.
Returns the sizes of the pages fetched by the successive invocations and
the final job row. -/
def chainRun (items : List ItemOutcome) (limit now offset : Nat) (job : CloneJob) :
    List Nat × CloneJob :=
  let page := (items.drop offset).take limit
  let r := handler (.ok page) offset limit (some job.processed_count) now
  let job1 := applyUpdates job r.updates
  if h : page.length = limit ∧ page ≠ [] then
    let rest := chainRun items limit now (offset + limit) job1
    (page.length :: rest.1, rest.2)
  else
    ([page.length], job1)
termination_by items.length - offset
decreasing_by
  have hlt : offset < items.length := by
    by_contra hge
    have hnil : items.drop offset = [] := by
      apply List.drop_eq_nil_of_le
      omega
    apply h.2
    show List.take limit (List.drop offset items) = []
    rw [hnil]
    simp
  have hpos : 1 ≤ limit := by
    rcases h with ⟨hlen, hne⟩
    rcases Nat.eq_zero_or_pos limit with h0 | h1
    · exfalso
      apply hne
      rw [← List.length_eq_zero]
      omega
    · exact h1
  omega

/-- Candidate names tried by generateUniqueSlug in order: the bare base
slug first, then base-1, base-2, and so on, exactly the template
interpolation of the source. -/
def slugCandidate (baseSlug : String) (k : Nat) : String :=
  if k = 0 then baseSlug else baseSlug ++ "-" ++ toString k

/-- The while loop of generateUniqueSlug, starting at candidate index k:
while the current candidate is in the existing set, move to the next
counter value.  The source loop is unbounded; the fuel argument bounds the
modelled iterations, and every run that finds a free candidate within fuel
steps is represented exactly. -/
def slugLoop (baseSlug : String) (existingSet : List String) : Nat → Nat → String
  | k, 0 => slugCandidate baseSlug k
  | k, fuel + 1 =>
    if slugCandidate baseSlug k ∈ existingSet then
      slugLoop baseSlug existingSet (k + 1) fuel
    else
      slugCandidate baseSlug k

/-- generateUniqueSlug of copy-products-between-users: find the first free
candidate, add it to the existing set (existingSet.add before return), and
return it together with the updated set. -/
def generateUniqueSlug (baseSlug : String) (existingSet : List String) :
    String × List String :=
  let u := slugLoop baseSlug existingSet 0 (existingSet.length + 1)
  (u, u :: existingSet)

/-- A products row as far as the page query is concerned: its id and the
owning user_id. -/
structure ProductRow where
  id : Nat
  user_id : Nat
deriving DecidableEq, Repr

/-- The page fetch of clone-user-products: select products, filter on
user_id equal to the source user, then range(offset, offset + limit - 1).
The query carries no order clause, so the backend is free to enumerate the
matching rows in any order; the serverRows argument is the enumeration the
backend chose for this particular query, and range keeps positions
offset through offset + limit - 1 of it. -/
def fetchPage (serverRows : List ProductRow) (sourceUserId offset limit : Nat) :
    List ProductRow :=
  ((serverRows.filter (fun p => p.user_id == sourceUserId)).drop offset).take limit

/-- Events of the image-replication phase for one product: task i's fetch
is initiated, or task i's promise settles. -/
inductive ImgEvent
  | start (i : Nat)
  | settle (i : Nat)
deriving DecidableEq, Repr

/-- Start events for n image tasks beginning at index i, in index order. -/
def startsFrom (i : Nat) : Nat → List ImgEvent
  | 0 => []
  | n + 1 => ImgEvent.start i :: startsFrom (i + 1) n

/-- The event prefix produced by productImages.map over a list of n
images: each async callback runs synchronously up to its first await, so
the fetch of every image is initiated during the map itself, before the
event loop can deliver any settlement and before the chunked Promise.all
of imageLimiter first suspends.  Every execution of the source therefore
begins with these n start events. -/
def imageDispatchTrace (n : Nat) : List ImgEvent :=
  startsFrom 0 n

/-- Number of in-flight transfers after a trace prefix, given the count
before it: a start adds one, a settlement removes one. -/
def inFlightStep (cur : Nat) : ImgEvent → Nat
  | .start _ => cur + 1
  | .settle _ => cur - 1

/-- Largest number of simultaneously in-flight transfers reached along a
trace, starting from cur in flight. -/
def maxInFlightAux (cur : Nat) : List ImgEvent → Nat
  | [] => cur
  | e :: rest => Nat.max cur (maxInFlightAux (inFlightStep cur e) rest)

/-- Largest number of simultaneously in-flight transfers along a trace
that begins with nothing in flight. -/
def maxInFlight (trace : List ImgEvent) : Nat :=
  maxInFlightAux 0 trace

/-- The concurrency window constant of clone-user-products. -/
def CONCURRENT_IMAGE_LIMIT : Nat := 5

/-- A source products row for processBatch, read as a map from column name
to column value. -/
def SourceRecord : Type := String → String

/-- The insert payload built by processBatch for one cloned product: the
explicit column list of the source insert call, with user_id replaced by
the target user.  No other column is sent; in particular id, slug,
created_at and updated_at are absent and left to the database. -/
def clonedInsertFields (targetUserId : String) (p : SourceRecord) :
    List (String × String) :=
  [("user_id", targetUserId),
   ("title", p "title"),
   ("description", p "description"),
   ("price", p "price"),
   ("discounted_price", p "discounted_price"),
   ("status", p "status"),
   ("category", p "category"),
   ("brand", p "brand"),
   ("model", p "model"),
   ("gender", p "gender"),
   ("condition", p "condition"),
   ("video_url", p "video_url"),
   ("featured_offer_price", p "featured_offer_price"),
   ("featured_offer_installment", p "featured_offer_installment"),
   ("featured_offer_description", p "featured_offer_description"),
   ("is_starting_price", p "is_starting_price"),
   ("short_description", p "short_description"),
   ("is_visible_on_storefront", p "is_visible_on_storefront"),
   ("external_checkout_url", p "external_checkout_url"),
   ("colors", p "colors"),
   ("sizes", p "sizes"),
   ("display_order", p "display_order")]

/-- Accumulator shift for the processBatch loop: counters only add to the
starting pair. -/
theorem processBatchLoop_shift (l : List ItemOutcome) :
    ∀ a b : Nat, processBatchLoop (a, b) l =
      (a + (processBatchLoop (0, 0) l).1, b + (processBatchLoop (0, 0) l).2) := by
  induction l with
  | nil =>
    intro a b
    simp [processBatchLoop]
  | cons o rest ih =>
    intro a b
    cases o with
    | ok =>
      show processBatchLoop (a + 1, b) rest =
        (a + (processBatchLoop (1, 0) rest).1, b + (processBatchLoop (1, 0) rest).2)
      rw [ih (a + 1) b, ih 1 0]
      simp only [Prod.mk.injEq]
      omega
    | insertError =>
      show processBatchLoop (a, b + 1) rest =
        (a + (processBatchLoop (0, 1) rest).1, b + (processBatchLoop (0, 1) rest).2)
      rw [ih a (b + 1), ih 0 1]
      simp only [Prod.mk.injEq]
      omega
    | thrown =>
      show processBatchLoop (a, b + 1) rest =
        (a + (processBatchLoop (0, 1) rest).1, b + (processBatchLoop (0, 1) rest).2)
      rw [ih a (b + 1), ih 0 1]
      simp only [Prod.mk.injEq]
      omega

/-- The processBatch loop over a concatenation processes the first part and
continues with its counters into the second. -/
theorem processBatchLoop_append (pre : List ItemOutcome) :
    ∀ (post : List ItemOutcome) (acc : Nat × Nat),
      processBatchLoop acc (pre ++ post) =
        processBatchLoop (processBatchLoop acc pre) post := by
  induction pre with
  | nil =>
    intro post acc
    rfl
  | cons o rest ih =>
    intro post acc
    cases o with
    | ok => exact ih post (acc.1 + 1, acc.2)
    | insertError => exact ih post (acc.1, acc.2 + 1)
    | thrown => exact ih post (acc.1, acc.2 + 1)

/-- Counter totals of processBatch are additive over page concatenation. -/
theorem processBatch_append (pre post : List ItemOutcome) :
    processBatch (pre ++ post) =
      ((processBatch pre).1 + (processBatch post).1,
       (processBatch pre).2 + (processBatch post).2) := by
  show processBatchLoop (0, 0) (pre ++ post) = _
  rw [processBatchLoop_append pre post (0, 0)]
  have hpair : processBatchLoop (0, 0) pre =
      ((processBatchLoop (0, 0) pre).1, (processBatchLoop (0, 0) pre).2) := rfl
  rw [hpair, processBatchLoop_shift post]
  rfl

/-- Success and error counts of a page sum to its length. -/
theorem processBatch_total (l : List ItemOutcome) :
    (processBatch l).1 + (processBatch l).2 = l.length := by
  induction l with
  | nil => rfl
  | cons o rest ih =>
    cases o with
    | ok =>
      show (processBatchLoop (1, 0) rest).1 + (processBatchLoop (1, 0) rest).2 = rest.length + 1
      rw [processBatchLoop_shift rest 1 0]
      show 1 + (processBatch rest).1 + (0 + (processBatch rest).2) = rest.length + 1
      omega
    | insertError =>
      show (processBatchLoop (0, 1) rest).1 + (processBatchLoop (0, 1) rest).2 = rest.length + 1
      rw [processBatchLoop_shift rest 0 1]
      show 0 + (processBatch rest).1 + (1 + (processBatch rest).2) = rest.length + 1
      omega
    | thrown =>
      show (processBatchLoop (0, 1) rest).1 + (processBatchLoop (0, 1) rest).2 = rest.length + 1
      rw [processBatchLoop_shift rest 0 1]
      show 0 + (processBatch rest).1 + (1 + (processBatch rest).2) = rest.length + 1
      omega

/-- Counts of a one-outcome page. -/
theorem processBatch_singleton_ok : processBatch [ItemOutcome.ok] = (1, 0) := rfl

/-- C3: a per-item failure (insert error or uncaught per-item exception)
increments the error counter and processing continues with the rest of the
page: removing one failing record from any position leaves the success
count unchanged and the error count one lower, removing a succeeding
record leaves the error count unchanged and the success count one lower,
and successCount + errorCount always equals the page length, so every item
of the page is attempted and no single bad record aborts the batch. -/
theorem processBatch_isolates_per_item_failures
    (page pre post : List ItemOutcome) :
    (processBatch page).1 + (processBatch page).2 = page.length ∧
    processBatch (pre ++ ItemOutcome.insertError :: post) =
      ((processBatch (pre ++ post)).1, (processBatch (pre ++ post)).2 + 1) ∧
    processBatch (pre ++ ItemOutcome.thrown :: post) =
      ((processBatch (pre ++ post)).1, (processBatch (pre ++ post)).2 + 1) ∧
    processBatch (pre ++ ItemOutcome.ok :: post) =
      ((processBatch (pre ++ post)).1 + 1, (processBatch (pre ++ post)).2) := by
  have hsplit : ∀ o : ItemOutcome, pre ++ o :: post = pre ++ [o] ++ post := by
    intro o
    simp
  refine ⟨processBatch_total page, ?_, ?_, ?_⟩
  · rw [hsplit, processBatch_append, processBatch_append, processBatch_append,
      show processBatch [ItemOutcome.insertError] = (0, 1) from rfl]
    simp only [Prod.mk.injEq]
    omega
  · rw [hsplit, processBatch_append, processBatch_append, processBatch_append,
      show processBatch [ItemOutcome.thrown] = (0, 1) from rfl]
    simp only [Prod.mk.injEq]
    omega
  · rw [hsplit, processBatch_append, processBatch_append, processBatch_append,
      show processBatch [ItemOutcome.ok] = (1, 0) from rfl]
    simp only [Prod.mk.injEq]
    omega

/-- Evaluation of the handler on an empty fetched page. -/
theorem handler_empty_page (offset limit : Nat) (prev : Option Nat) (now : Nat) :
    handler (.ok []) offset limit prev now =
      { updates := [⟨some JobStatus.completed, none, some now⟩],
        invokesNext := none } := rfl

/-- Evaluation of the handler on a fetch error: it throws into the catch
block before issuing any job update. -/
theorem handler_fetch_error (offset limit : Nat) (prev : Option Nat) (now : Nat) :
    handler (.error ()) offset limit prev now =
      { updates := [], invokesNext := none } := rfl

/-- Evaluation of the handler on a full page: processing and count updates
only, then a dispatch at offset + limit. -/
theorem handler_full_page (page : List ItemOutcome) (offset limit : Nat)
    (prev : Option Nat) (now : Nat) (hne : page ≠ [])
    (hfull : page.length = limit) :
    handler (.ok page) offset limit prev now =
      { updates :=
          [⟨some JobStatus.processing, none, none⟩,
           ⟨none, some (prev.getD 0 + (processBatch page).1), none⟩],
        invokesNext := some (offset + limit) } := by
  have he : page.isEmpty = false := by
    cases page with
    | nil => exact absurd rfl hne
    | cons a l => rfl
  simp [handler, he, hfull]

/-- Evaluation of the handler on a non-empty short page: processing and
count updates, then the completion update, and no dispatch. -/
theorem handler_short_page (page : List ItemOutcome) (offset limit : Nat)
    (prev : Option Nat) (now : Nat) (hne : page ≠ [])
    (hshort : page.length ≠ limit) :
    handler (.ok page) offset limit prev now =
      { updates :=
          [⟨some JobStatus.processing, none, none⟩,
           ⟨none, some (prev.getD 0 + (processBatch page).1), none⟩,
           ⟨some JobStatus.completed, none, some now⟩],
        invokesNext := none } := by
  have he : page.isEmpty = false := by
    cases page with
    | nil => exact absurd rfl hne
    | cons a l => rfl
  simp [handler, he, hshort]

/-- C9: every clone_jobs update issued by the clone-user-products handler
carries a completed_at timestamp exactly when it sets status completed;
no update of any other code path sets completed_at. -/
theorem handler_completed_at_iff_completed
    (fetched : Except Unit (List ItemOutcome)) (offset limit : Nat)
    (prev : Option Nat) (now : Nat) (u : JobUpdate)
    (hu : u ∈ (handler fetched offset limit prev now).updates) :
    u.completed_at ≠ none ↔ u.status = some JobStatus.completed := by
  match fetched with
  | .error e => simp [handler] at hu
  | .ok page =>
    by_cases hne : page = []
    · subst hne
      rw [handler_empty_page] at hu
      simp at hu
      subst hu
      simp
    · by_cases hfull : page.length = limit
      · rw [handler_full_page page offset limit prev now hne hfull] at hu
        simp at hu
        rcases hu with hu | hu <;> subst hu <;> simp
      · rw [handler_short_page page offset limit prev now hne hfull] at hu
        simp at hu
        rcases hu with hu | hu | hu <;> subst hu <;> simp

/-- The action trace agrees with the handler result: its update actions
in order are exactly the handler's updates, and it contains an awaited
continuation at an offset exactly when the handler dispatches there. -/
theorem handlerTrace_agrees (fetched : Except Unit (List ItemOutcome))
    (offset limit : Nat) (prev : Option Nat) (now : Nat) :
    (handlerTrace fetched offset limit prev now).filterMap
      (fun a => match a with
        | WorkerAction.jobUpdate u => some u
        | WorkerAction.awaitContinuation _ => none
        | WorkerAction.respond => none) =
      (handler fetched offset limit prev now).updates ∧
    (∀ o : Nat,
      WorkerAction.awaitContinuation o ∈ handlerTrace fetched offset limit prev now ↔
        (handler fetched offset limit prev now).invokesNext = some o) := by
  match fetched with
  | .error e => simp [handlerTrace, handler]
  | .ok page =>
    by_cases hne : page = []
    · subst hne
      rw [handler_empty_page]
      simp [handlerTrace]
    · have he : page.isEmpty = false := by
        cases page with
        | nil => exact absurd rfl hne
        | cons a l => rfl
      by_cases hfull : page.length = limit
      · rw [handler_full_page page offset limit prev now hne hfull]
        simp only [handlerTrace, he, hfull]
        refine ⟨by simp, ?_⟩
        intro o
        simp [eq_comm]
      · rw [handler_short_page page offset limit prev now hne hfull]
        simp [handlerTrace, he, hfull]

/-- C2 amended: for a batch invocation that fetched a non-empty page, a
page shorter than limit makes the handler mark the job completed with a
timestamp, dispatch nothing and never await a continuation, while a page
of exactly limit items makes it dispatch the next invocation at
offset + limit and await that dispatch's response after all of its job
updates and before returning its own response — the continuation is
awaited, not fire-and-forget — and write no completed status and no
timestamp. -/
theorem handler_continuation_awaited
    (page : List ItemOutcome) (offset limit : Nat) (prev : Option Nat)
    (now : Nat) (hne : page ≠ []) :
    (page.length < limit →
      (handler (.ok page) offset limit prev now).invokesNext = none ∧
      (handler (.ok page) offset limit prev now).updates =
        [⟨some JobStatus.processing, none, none⟩,
         ⟨none, some (prev.getD 0 + (processBatch page).1), none⟩,
         ⟨some JobStatus.completed, none, some now⟩] ∧
      (∀ o : Nat, WorkerAction.awaitContinuation o ∉
        handlerTrace (.ok page) offset limit prev now)) ∧
    (page.length = limit →
      (handler (.ok page) offset limit prev now).invokesNext =
        some (offset + limit) ∧
      handlerTrace (.ok page) offset limit prev now =
        [WorkerAction.jobUpdate ⟨some JobStatus.processing, none, none⟩,
         WorkerAction.jobUpdate
           ⟨none, some (prev.getD 0 + (processBatch page).1), none⟩,
         WorkerAction.awaitContinuation (offset + limit),
         WorkerAction.respond] ∧
      ∀ u ∈ (handler (.ok page) offset limit prev now).updates,
        u.status ≠ some JobStatus.completed ∧ u.completed_at = none) := by
  have he : page.isEmpty = false := by
    cases page with
    | nil => exact absurd rfl hne
    | cons a l => rfl
  constructor
  · intro hlt
    have hshort : page.length ≠ limit := by omega
    rw [handler_short_page page offset limit prev now hne hshort]
    refine ⟨rfl, rfl, ?_⟩
    intro o
    simp [handlerTrace, he, hshort]
  · intro hfull
    rw [handler_full_page page offset limit prev now hne hfull]
    refine ⟨rfl, ?_, ?_⟩
    · simp [handlerTrace, he, hfull]
    · intro u hu
      simp at hu
      rcases hu with hu | hu <;> subst hu <;> simp

/-- C2 fails as stated: the continuation dispatch is not issued without
waiting — the source awaits the fetch of the next invocation, so on a
full page the worker's own response comes only after the awaited
continuation: at a concrete full one-item page the await action stands
strictly before the final respond action of the program-order trace. -/
theorem continuation_not_fire_and_forget :
    handlerTrace (.ok [ItemOutcome.ok]) 0 1 none 5 =
      [WorkerAction.jobUpdate ⟨some JobStatus.processing, none, none⟩,
       WorkerAction.jobUpdate ⟨none, some 1, none⟩,
       WorkerAction.awaitContinuation 1,
       WorkerAction.respond] ∧
    WorkerAction.awaitContinuation 1 ∈
      (handlerTrace (.ok [ItemOutcome.ok]) 0 1 none 5).dropLast ∧
    (handlerTrace (.ok [ItemOutcome.ok]) 0 1 none 5).getLast? =
      some WorkerAction.respond := by decide

/-- C8: a clone-user-products invocation never writes status failed: on a
fetched page every status it writes is processing or completed, it writes
completed only when the page is strictly shorter than limit (the source
exhausted), and when the page fetch fails it throws before issuing any
job update at all. -/
theorem handler_never_writes_failed
    (page : List ItemOutcome) (offset limit : Nat) (prev : Option Nat)
    (now : Nat) (hl : 1 ≤ limit) (hle : page.length ≤ limit) :
    (∀ u ∈ (handler (.ok page) offset limit prev now).updates,
      u.status ≠ some JobStatus.failed ∧
      (u.status = none ∨ u.status = some JobStatus.processing ∨
        u.status = some JobStatus.completed)) ∧
    ((∃ u ∈ (handler (.ok page) offset limit prev now).updates,
        u.status = some JobStatus.completed) → page.length < limit) ∧
    (handler (.error ()) offset limit prev now).updates = [] := by
  refine ⟨?_, ?_, rfl⟩
  · intro u hu
    by_cases hne : page = []
    · subst hne
      rw [handler_empty_page] at hu
      simp at hu
      subst hu
      simp
    · by_cases hfull : page.length = limit
      · rw [handler_full_page page offset limit prev now hne hfull] at hu
        simp at hu
        rcases hu with hu | hu <;> subst hu <;> simp
      · rw [handler_short_page page offset limit prev now hne hfull] at hu
        simp at hu
        rcases hu with hu | hu | hu <;> subst hu <;> simp
  · intro hex
    by_cases hfull : page.length = limit
    · exfalso
      have hne : page ≠ [] := by
        intro hnil
        subst hnil
        rw [List.length_nil] at hfull
        omega
      rcases hex with ⟨u, hu, hst⟩
      rw [handler_full_page page offset limit prev now hne hfull] at hu
      simp at hu
      rcases hu with hu | hu <;> subst hu <;> simp at hst
    · omega

/-- C10: the status processing write of the handler is unguarded by the
job's current status: on any non-empty page the first update issued sets
status processing unconditionally, and for a job already in a terminal
state (completed or failed) a full page leaves the row with status
processing, a status different from the terminal one it held. -/
theorem handler_processing_write_unguarded
    (job : CloneJob) (page : List ItemOutcome) (offset limit : Nat)
    (prev : Option Nat) (now : Nat)
    (hterm : job.status = JobStatus.completed ∨ job.status = JobStatus.failed)
    (hne : page ≠ []) :
    (handler (.ok page) offset limit prev now).updates.head? =
      some ⟨some JobStatus.processing, none, none⟩ ∧
    (applyUpdate job ⟨some JobStatus.processing, none, none⟩).status =
      JobStatus.processing ∧
    (page.length = limit →
      (applyUpdates job (handler (.ok page) offset limit prev now).updates).status =
        JobStatus.processing ∧
      (applyUpdates job (handler (.ok page) offset limit prev now).updates).status ≠
        job.status) := by
  refine ⟨?_, rfl, ?_⟩
  · by_cases hfull : page.length = limit
    · rw [handler_full_page page offset limit prev now hne hfull]
      rfl
    · rw [handler_short_page page offset limit prev now hne hfull]
      rfl
  · intro hfull
    rw [handler_full_page page offset limit prev now hne hfull]
    constructor
    · rfl
    · show JobStatus.processing ≠ job.status
      rcases hterm with h | h <;> rw [h] <;> intro hc <;> cases hc

/-- The slug while-loop returns the first free candidate at or after its
starting index, provided that candidate is within the modelled fuel. -/
theorem slugLoop_first_free (baseSlug : String) (s : List String) :
    ∀ (fuel k j : Nat), k ≤ j → j - k ≤ fuel →
      (∀ i, k ≤ i → i < j → slugCandidate baseSlug i ∈ s) →
      slugCandidate baseSlug j ∉ s →
      slugLoop baseSlug s k fuel = slugCandidate baseSlug j := by
  intro fuel
  induction fuel with
  | zero =>
    intro k j hkj hjk hmem hfree
    have hkj2 : j = k := by omega
    subst hkj2
    rfl
  | succ fuel ih =>
    intro k j hkj hjk hmem hfree
    show (if slugCandidate baseSlug k ∈ s then slugLoop baseSlug s (k + 1) fuel
      else slugCandidate baseSlug k) = slugCandidate baseSlug j
    by_cases hk : slugCandidate baseSlug k ∈ s
    · rw [if_pos hk]
      have hklt : k < j := by
        rcases Nat.lt_or_ge k j with h | h
        · exact h
        · exfalso
          have : j = k := by omega
          subst this
          exact hfree hk
      exact ih (k + 1) j (by omega) (by omega)
        (fun i h1 h2 => hmem i (by omega) h2) hfree
    · rw [if_neg hk]
      have hkj2 : k = j := by
        by_contra hne2
        exact hk (hmem k le_rfl (by omega))
      rw [hkj2]

/-- C7: generateUniqueSlug returns the first candidate absent from the
known set, scanning the bare base first and then base-1, base-2, and so
on, and adds the chosen slug to the set; in particular with base chair
against the set containing chair it returns chair-1, and called again
against the updated set it returns chair-2.  The index j names the first
free candidate; for a base absent from the set j is 0 and the bare base
is returned and added. -/
theorem generateUniqueSlug_first_free (baseSlug : String) (s : List String)
    (j : Nat) (hj : j ≤ s.length + 1)
    (hbelow : ∀ i, i < j → slugCandidate baseSlug i ∈ s)
    (hfree : slugCandidate baseSlug j ∉ s) :
    generateUniqueSlug baseSlug s =
      (slugCandidate baseSlug j, slugCandidate baseSlug j :: s) ∧
    slugCandidate baseSlug 0 = baseSlug ∧
    generateUniqueSlug "chair" ["chair"] = ("chair-1", ["chair-1", "chair"]) ∧
    generateUniqueSlug "chair" ["chair-1", "chair"] =
      ("chair-2", ["chair-2", "chair-1", "chair"]) := by
  refine ⟨?_, rfl, by decide, by decide⟩
  have h := slugLoop_first_free baseSlug s (s.length + 1) 0 j (by omega)
    (by omega) (fun i h1 h2 => hbelow i h2) hfree
  show (slugLoop baseSlug s 0 (s.length + 1),
    slugLoop baseSlug s 0 (s.length + 1) :: s) = _
  rw [h]

/-- Reaching at least the current in-flight count is preserved along any
trace suffix. -/
theorem le_maxInFlightAux : ∀ (tail : List ImgEvent) (cur : Nat),
    cur ≤ maxInFlightAux cur tail := by
  intro tail
  induction tail with
  | nil =>
    intro cur
    exact Nat.le_refl cur
  | cons e rest ih =>
    intro cur
    exact Nat.le_max_left cur (maxInFlightAux (inFlightStep cur e) rest)

/-- After the n synchronous start events of the map, at least cur + n
transfers have been simultaneously in flight, whatever settlements follow. -/
theorem maxInFlightAux_startsFrom :
    ∀ (n i cur : Nat) (tail : List ImgEvent),
      cur + n ≤ maxInFlightAux cur (startsFrom i n ++ tail) := by
  intro n
  induction n with
  | zero =>
    intro i cur tail
    show cur + 0 ≤ maxInFlightAux cur ([] ++ tail)
    rw [Nat.add_zero, List.nil_append]
    exact le_maxInFlightAux tail cur
  | succ n ih =>
    intro i cur tail
    show cur + (n + 1) ≤
      Nat.max cur (maxInFlightAux (cur + 1) (startsFrom (i + 1) n ++ tail))
    have h := ih (i + 1) (cur + 1) tail
    have h2 : cur + (n + 1) = cur + 1 + n := by omega
    rw [h2]
    exact Nat.le_trans h (Nat.le_max_right cur _)

/-- C4 is violated by the source: productImages.map initiates every image
fetch synchronously before the chunked Promise.all of imageLimiter first
awaits, so for an item with six images six transfers are in flight at
once, exceeding CONCURRENT_IMAGE_LIMIT = 5; in general the peak in-flight
count reaches the full asset-list length n, not the window size. -/
theorem imageDispatch_exceeds_window :
    ∀ tail : List ImgEvent,
      CONCURRENT_IMAGE_LIMIT < maxInFlight (imageDispatchTrace 6 ++ tail) ∧
      ∀ n : Nat, n ≤ maxInFlight (imageDispatchTrace n ++ tail) := by
  intro tail
  have hgen : ∀ n : Nat, n ≤ maxInFlight (imageDispatchTrace n ++ tail) := by
    intro n
    have h := maxInFlightAux_startsFrom n 0 0 tail
    rw [Nat.zero_add] at h
    exact h
  exact ⟨Nat.lt_of_lt_of_le (by decide) (hgen 6), hgen⟩

/-- C6 amended: the batch worker clones exactly the explicit business
column list of the source insert, with user_id replaced by the target
account; id, created_at and updated_at are absent (regenerated by the
database), and so is slug — the insert payload carries no name and the
worker never invokes the slug resolver.  The chair to chair-1 collision
behaviour belongs to generateUniqueSlug of the synchronous copy
operation. -/
theorem clonedInsert_field_policy (targetUserId : String) (p : SourceRecord) :
    (clonedInsertFields targetUserId p).map Prod.fst =
      ["user_id", "title", "description", "price", "discounted_price",
       "status", "category", "brand", "model", "gender", "condition",
       "video_url", "featured_offer_price", "featured_offer_installment",
       "featured_offer_description", "is_starting_price", "short_description",
       "is_visible_on_storefront", "external_checkout_url", "colors",
       "sizes", "display_order"] ∧
    (clonedInsertFields targetUserId p).lookup "id" = none ∧
    (clonedInsertFields targetUserId p).lookup "created_at" = none ∧
    (clonedInsertFields targetUserId p).lookup "updated_at" = none ∧
    (clonedInsertFields targetUserId p).lookup "slug" = none ∧
    (clonedInsertFields targetUserId p).lookup "user_id" = some targetUserId ∧
    (clonedInsertFields targetUserId p).lookup "title" = some (p "title") ∧
    (generateUniqueSlug "chair" ["chair"]).1 = "chair-1" := by
  refine ⟨rfl, rfl, rfl, rfl, rfl, rfl, rfl, by decide⟩

/-- C6 fails as stated: in the batch worker, cloning a source item whose
every column reads chair into a target that owns slug chair does not
produce a clone named chair-1 — the insert payload built by processBatch
contains no slug column at all. -/
theorem clonedInsert_no_slug_counterexample :
    (clonedInsertFields "target-user" (fun _ => "chair")).lookup "slug" = none ∧
    "slug" ∉ (clonedInsertFields "target-user" (fun _ => "chair")).map Prod.fst ∧
    (clonedInsertFields "target-user" (fun _ => "chair")).lookup "slug" ≠
      some "chair-1" ∧
    (clonedInsertFields "target-user" (fun _ => "chair")).lookup "title" =
      some "chair" := by
  refine ⟨rfl, by decide, ?_, rfl⟩
  intro h
  cases h

/-- Concatenating the chunks taken at offsets 0, limit, 2·limit, … of a
list restores the list, one chunk per page plus the final short or empty
page. -/
theorem flatten_chunks {α : Type} :
    ∀ (len : Nat) (l : List α) (limit : Nat), 1 ≤ limit → l.length ≤ len →
      ((List.range (l.length / limit + 1)).map
        (fun k => (l.drop (k * limit)).take limit)).flatten = l := by
  intro len
  induction len with
  | zero =>
    intro l limit hl hlen
    have hnil : l = [] := List.length_eq_zero.mp (by omega)
    subst hnil
    simp
  | succ len ih =>
    intro l limit hl hlen
    by_cases hsmall : l.length < limit
    · have hdiv : l.length / limit = 0 := Nat.div_eq_of_lt hsmall
      rw [hdiv, show List.range (0 + 1) = [0] from rfl]
      simp only [List.map_cons, List.map_nil, List.flatten_cons,
        List.flatten_nil, List.append_nil, Nat.zero_mul, List.drop_zero]
      exact List.take_of_length_le (Nat.le_of_lt hsmall)
    · push_neg at hsmall
      have hdiv : l.length / limit = (l.length - limit) / limit + 1 :=
        Nat.div_eq_sub_div (by omega) hsmall
      rw [hdiv, List.range_succ_eq_map, List.map_cons, List.map_map,
        List.flatten_cons]
      have hfun : ((fun k => (l.drop (k * limit)).take limit) ∘ Nat.succ) =
          (fun k => ((l.drop limit).drop (k * limit)).take limit) := by
        funext k
        show (l.drop (Nat.succ k * limit)).take limit =
          ((l.drop limit).drop (k * limit)).take limit
        rw [List.drop_drop]
        have hsm : Nat.succ k * limit = k * limit + limit := Nat.succ_mul k limit
        have harith : limit + k * limit = Nat.succ k * limit := by omega
        rw [harith]
      rw [hfun]
      have hlen2 : (l.drop limit).length = l.length - limit :=
        List.length_drop limit l
      have ihd := ih (l.drop limit) limit hl (by rw [hlen2]; omega)
      rw [hlen2] at ihd
      rw [ihd]
      rw [Nat.zero_mul, List.drop_zero]
      exact List.take_append_drop limit l

/-- C5 amended: the page query of clone-user-products carries no order
clause, so each invocation receives the backend's own enumeration of the
matching rows; when every invocation observes the same enumeration, the
pages fetched at offsets 0, limit, 2·limit, … concatenate to exactly the
filtered source rows — no skips and no duplicates — but stability is an
assumption about the backend, not something the query requests. -/
theorem fetchPage_partitions_under_stable_order (serverRows : List ProductRow)
    (uid limit : Nat) (hl : 1 ≤ limit) :
    ((List.range
        ((serverRows.filter (fun p => p.user_id == uid)).length / limit + 1)).map
      (fun k => fetchPage serverRows uid (k * limit) limit)).flatten =
      serverRows.filter (fun p => p.user_id == uid) := by
  simp only [fetchPage]
  exact flatten_chunks (serverRows.filter (fun p => p.user_id == uid)).length
    (serverRows.filter (fun p => p.user_id == uid)) limit hl le_rfl

/-- C5 fails as stated: the query orders nothing, so two invocations may
legitimately observe two different enumerations of the same two matching
rows; offsets 0 and 1 with limit 1 then return the same row twice — row 1
is duplicated and row 2 is skipped, so successive pages do not partition
the source items. -/
theorem fetchPage_order_counterexample :
    List.Perm [ProductRow.mk 1 7, ProductRow.mk 2 7]
      [ProductRow.mk 2 7, ProductRow.mk 1 7] ∧
    fetchPage [ProductRow.mk 1 7, ProductRow.mk 2 7] 7 0 1 =
      [ProductRow.mk 1 7] ∧
    fetchPage [ProductRow.mk 2 7, ProductRow.mk 1 7] 7 1 1 =
      [ProductRow.mk 1 7] ∧
    ProductRow.mk 2 7 ∉
      (fetchPage [ProductRow.mk 1 7, ProductRow.mk 2 7] 7 0 1 ++
        fetchPage [ProductRow.mk 2 7, ProductRow.mk 1 7] 7 1 1) ∧
    ¬ (fetchPage [ProductRow.mk 1 7, ProductRow.mk 2 7] 7 0 1 ++
        fetchPage [ProductRow.mk 2 7, ProductRow.mk 1 7] 7 1 1).Nodup := by
  refine ⟨List.Perm.swap (ProductRow.mk 2 7) (ProductRow.mk 1 7) [],
    by decide, by decide, by decide, by decide⟩

/-- Single-step equation of the self-chaining run. -/
theorem chainRun_eq (items : List ItemOutcome) (limit now offset : Nat)
    (job : CloneJob) :
    chainRun items limit now offset job =
      if ((items.drop offset).take limit).length = limit ∧
          (items.drop offset).take limit ≠ [] then
        (((items.drop offset).take limit).length ::
            (chainRun items limit now (offset + limit)
              (applyUpdates job
                (handler (.ok ((items.drop offset).take limit)) offset limit
                  (some job.processed_count) now).updates)).1,
          (chainRun items limit now (offset + limit)
            (applyUpdates job
              (handler (.ok ((items.drop offset).take limit)) offset limit
                (some job.processed_count) now).updates)).2)
      else
        ([((items.drop offset).take limit).length],
          applyUpdates job
            (handler (.ok ((items.drop offset).take limit)) offset limit
              (some job.processed_count) now).updates) := by
  rw [chainRun, dite_eq_ite]

/-- An invocation past the end of the source items fetches an empty page
and marks the job completed. -/
theorem chainRun_exhausted (items : List ItemOutcome) (limit now offset : Nat)
    (job : CloneJob) (h : items.length ≤ offset) :
    chainRun items limit now offset job =
      ([0],
       { status := JobStatus.completed,
         processed_count := job.processed_count,
         completed_at := some now }) := by
  rw [chainRun_eq]
  have hdrop : items.drop offset = [] := List.drop_eq_nil_of_le h
  rw [hdrop, List.take_nil]
  rw [if_neg (fun hc => hc.2 rfl)]
  rw [handler_empty_page]
  simp [applyUpdates, applyUpdate]

/-- Success count of a page on which every insert succeeds. -/
theorem processBatch_replicate_ok :
    ∀ k : Nat, processBatch (List.replicate k ItemOutcome.ok) = (k, 0) := by
  intro k
  induction k with
  | zero => rfl
  | succ k ih =>
    show processBatchLoop (1, 0) (List.replicate k ItemOutcome.ok) = (k + 1, 0)
    rw [processBatchLoop_shift]
    show (1 + (processBatch (List.replicate k ItemOutcome.ok)).1,
      0 + (processBatch (List.replicate k ItemOutcome.ok)).2) = (k + 1, 0)
    rw [ih]
    show (1 + k, 0 + 0) = (k + 1, 0)
    rw [Nat.add_comm 1 k]

/-- Closed form of a failure-free self-chaining run over N items starting
at any offset: page sizes are limit, …, limit followed by the remainder
(possibly a final empty page when limit divides the remaining count), the
job ends completed with a timestamp, and processedCount grows by exactly
the number of remaining items. -/
theorem chainRun_replicate (limit : Nat) (hl : 1 ≤ limit) :
    ∀ (d N offset : Nat) (job : CloneJob) (now : Nat),
      N - offset ≤ d → offset ≤ N →
      chainRun (List.replicate N ItemOutcome.ok) limit now offset job =
        (List.replicate ((N - offset) / limit) limit ++ [(N - offset) % limit],
         { status := JobStatus.completed,
           processed_count := job.processed_count + (N - offset),
           completed_at := some now }) := by
  intro d
  induction d with
  | zero =>
    intro N offset job now hd hoff
    have hD : N - offset = 0 := by omega
    rw [chainRun_exhausted _ _ _ _ _ (by rw [List.length_replicate]; omega)]
    rw [hD]
    simp
  | succ d ih =>
    intro N offset job now hd hoff
    by_cases hbig : limit ≤ N - offset
    · rw [chainRun_eq, List.drop_replicate, List.take_replicate]
      have hmin : min limit (N - offset) = limit := Nat.min_eq_left hbig
      rw [hmin]
      have hpage_ne : List.replicate limit ItemOutcome.ok ≠ [] := by
        intro hc
        have hle2 := congrArg List.length hc
        rw [List.length_replicate, List.length_nil] at hle2
        omega
      rw [if_pos ⟨List.length_replicate limit ItemOutcome.ok, hpage_ne⟩]
      rw [handler_full_page (List.replicate limit ItemOutcome.ok) offset limit
        (some job.processed_count) now hpage_ne
        (List.length_replicate limit ItemOutcome.ok)]
      have hj1 : applyUpdates job
          [⟨some JobStatus.processing, none, none⟩,
           ⟨none, some ((some job.processed_count).getD 0 +
             (processBatch (List.replicate limit ItemOutcome.ok)).1), none⟩] =
          { status := JobStatus.processing,
            processed_count := job.processed_count + limit,
            completed_at := job.completed_at } := by
        simp [applyUpdates, applyUpdate, processBatch_replicate_ok]
      rw [hj1]
      rw [ih N (offset + limit)
        { status := JobStatus.processing,
          processed_count := job.processed_count + limit,
          completed_at := job.completed_at } now (by omega) (by omega)]
      simp only [Prod.mk.injEq, List.length_replicate]
      have e1 : N - (offset + limit) = N - offset - limit := by omega
      constructor
      · have hq : (N - offset) / limit = (N - offset - limit) / limit + 1 :=
          Nat.div_eq_sub_div (by omega) hbig
        have hr : (N - offset) % limit = (N - offset - limit) % limit :=
          Nat.mod_eq_sub_mod hbig
        rw [e1, hq, hr, List.replicate_succ, List.cons_append]
      · have e2 : job.processed_count + limit + (N - (offset + limit)) =
            job.processed_count + (N - offset) := by omega
        rw [e2]
    · push_neg at hbig
      by_cases hzero : N - offset = 0
      · rw [chainRun_exhausted _ _ _ _ _ (by rw [List.length_replicate]; omega)]
        rw [hzero]
        simp
      · rw [chainRun_eq, List.drop_replicate, List.take_replicate]
        have hmin : min limit (N - offset) = N - offset :=
          Nat.min_eq_right (by omega)
        rw [hmin]
        have hne : List.replicate (N - offset) ItemOutcome.ok ≠ [] := by
          intro hc
          have hle2 := congrArg List.length hc
          rw [List.length_replicate, List.length_nil] at hle2
          omega
        rw [if_neg (fun hc => by
          rw [List.length_replicate] at hc
          omega)]
        rw [handler_short_page (List.replicate (N - offset) ItemOutcome.ok)
          offset limit (some job.processed_count) now hne
          (by rw [List.length_replicate]; omega)]
        have hj1 : applyUpdates job
            [⟨some JobStatus.processing, none, none⟩,
             ⟨none, some ((some job.processed_count).getD 0 +
               (processBatch (List.replicate (N - offset) ItemOutcome.ok)).1),
               none⟩,
             ⟨some JobStatus.completed, none, some now⟩] =
            { status := JobStatus.completed,
              processed_count := job.processed_count + (N - offset),
              completed_at := some now } := by
          simp [applyUpdates, applyUpdate, processBatch_replicate_ok]
        rw [hj1]
        simp only [Prod.mk.injEq, List.length_replicate]
        constructor
        · rw [Nat.div_eq_of_lt hbig, Nat.mod_eq_of_lt hbig]
          simp
        · trivial

/-- C1 amended: a failure-free run over N ≥ 1 items with limit L ≥ 1
performs exactly N / L + 1 batch invocations, fetching pages of size L
repeated N / L times followed by a final page of size N mod L (an empty
final page when L divides N), and ends with processedCount = N and status
completed with a timestamp; when L does not divide N the invocation count
equals the ceiling of N / L, as the claim states, and when L divides N it
exceeds it by one. -/
theorem chain_invocation_count (N limit : Nat) (job : CloneJob) (now : Nat)
    (h1 : 1 ≤ N) (hl : 1 ≤ limit) (hpc : job.processed_count = 0) :
    (chainRun (List.replicate N ItemOutcome.ok) limit now 0 job).1.length =
      N / limit + 1 ∧
    (chainRun (List.replicate N ItemOutcome.ok) limit now 0 job).1 =
      List.replicate (N / limit) limit ++ [N % limit] ∧
    (chainRun (List.replicate N ItemOutcome.ok) limit now 0 job).2 =
      { status := JobStatus.completed, processed_count := N,
        completed_at := some now } ∧
    (¬ limit ∣ N → N / limit + 1 = (N + limit - 1) / limit) := by
  have h := chainRun_replicate limit hl N N 0 job now (by omega) (by omega)
  rw [Nat.sub_zero] at h
  refine ⟨?_, ?_, ?_, ?_⟩
  · rw [h]
    simp
  · rw [h]
  · rw [h]
    rw [hpc, Nat.zero_add]
  · intro hdvd
    have hr : N % limit ≠ 0 := fun hc => hdvd (Nat.dvd_of_mod_eq_zero hc)
    have hmod := Nat.div_add_mod N limit
    have hrlt : N % limit < limit := Nat.mod_lt N (by omega)
    have hm2 : limit * (N / limit + 1) = limit * (N / limit) + limit :=
      Nat.mul_succ limit (N / limit)
    have he : N + limit - 1 = limit * (N / limit + 1) + (N % limit - 1) := by
      omega
    rw [he, Nat.mul_add_div (by omega)]
    have hz : (N % limit - 1) / limit = 0 := Nat.div_eq_of_lt (by omega)
    omega

/-- C1 fails as stated when the limit divides the item count: five items
with limit five take two invocations (a full page then an empty page),
while the claimed ceiling formula gives one. -/
theorem chain_extra_invocation_on_exact_multiple :
    (chainRun (List.replicate 5 ItemOutcome.ok) 5 0 0
        { status := JobStatus.pending, processed_count := 0,
          completed_at := none }).1.length = 2 ∧
    (5 + 5 - 1) / 5 = 1 ∧ (2 : Nat) ≠ 1 := by
  refine ⟨?_, by decide, by decide⟩
  have h := chainRun_replicate 5 (by omega) 5 5 0
    { status := JobStatus.pending, processed_count := 0,
      completed_at := none } 0 (by omega) (by omega)
  rw [Nat.sub_zero] at h
  rw [h]
  decide

/-- Witness for C1 at the spec scenario: 12 items, limit 5 — three
invocations fetching pages of sizes 5, 5, 2, final processedCount 12,
status completed. -/
theorem chain_invocation_count_witness :
    (chainRun (List.replicate 12 ItemOutcome.ok) 5 0 0
        { status := JobStatus.pending, processed_count := 0,
          completed_at := none }).1 = [5, 5, 2] ∧
    (chainRun (List.replicate 12 ItemOutcome.ok) 5 0 0
        { status := JobStatus.pending, processed_count := 0,
          completed_at := none }).2 =
      { status := JobStatus.completed, processed_count := 12,
        completed_at := some 0 } := by
  have h := chain_invocation_count 12 5
    { status := JobStatus.pending, processed_count := 0, completed_at := none }
    0 (by omega) (by omega) rfl
  refine ⟨?_, h.2.2.1⟩
  rw [h.2.1]
  decide

/-- Witness for C2: a full one-item page with limit one dispatches at
offset one and awaits it after both job updates and before responding,
writing no completion. -/
theorem handler_continuation_awaited_witness :
    (handler (.ok [ItemOutcome.ok]) 0 1 none 7).invokesNext = some 1 ∧
    handlerTrace (.ok [ItemOutcome.ok]) 0 1 none 7 =
      [WorkerAction.jobUpdate ⟨some JobStatus.processing, none, none⟩,
       WorkerAction.jobUpdate ⟨none, some 1, none⟩,
       WorkerAction.awaitContinuation 1,
       WorkerAction.respond] ∧
    (∀ u ∈ (handler (.ok [ItemOutcome.ok]) 0 1 none 7).updates,
      u.status ≠ some JobStatus.completed ∧ u.completed_at = none) := by
  have h := (handler_continuation_awaited [ItemOutcome.ok] 0 1 none 7
    (by decide)).2 rfl
  exact h

/-- Witness for C5: with a two-row source and limit one, the pages at
offsets 0 and 1 under one fixed enumeration concatenate to the filtered
rows. -/
theorem fetchPage_partition_witness :
    ((List.range
        (([ProductRow.mk 1 7, ProductRow.mk 2 7].filter
            (fun p => p.user_id == 7)).length / 1 + 1)).map
      (fun k =>
        fetchPage [ProductRow.mk 1 7, ProductRow.mk 2 7] 7 (k * 1) 1)).flatten =
      [ProductRow.mk 1 7, ProductRow.mk 2 7].filter (fun p => p.user_id == 7) :=
  fetchPage_partitions_under_stable_order
    [ProductRow.mk 1 7, ProductRow.mk 2 7] 7 1 (by omega)

/-- Witness for C7: chair against the set containing chair resolves to
chair-1 and the set is updated. -/
theorem generateUniqueSlug_witness :
    generateUniqueSlug "chair" ["chair"] = ("chair-1", ["chair-1", "chair"]) := by
  have h := (generateUniqueSlug_first_free "chair" ["chair"] 1 (by omega)
    (fun i hi => by
      have h0 : i = 0 := by omega
      rw [h0]
      decide)
    (by decide)).1
  have hc : slugCandidate "chair" 1 = "chair-1" := by decide
  rw [hc] at h
  exact h

/-- Witness for C8 at a one-item page with limit one. -/
theorem handler_never_writes_failed_witness :
    (∀ u ∈ (handler (.ok [ItemOutcome.ok]) 0 1 none 3).updates,
      u.status ≠ some JobStatus.failed ∧
      (u.status = none ∨ u.status = some JobStatus.processing ∨
        u.status = some JobStatus.completed)) ∧
    ((∃ u ∈ (handler (.ok [ItemOutcome.ok]) 0 1 none 3).updates,
        u.status = some JobStatus.completed) →
      [ItemOutcome.ok].length < 1) ∧
    (handler (.error ()) 0 1 none 3).updates = [] :=
  handler_never_writes_failed [ItemOutcome.ok] 0 1 none 3 (by omega) (by decide)

/-- Witness for C9 at the empty-page completion update. -/
theorem handler_completed_at_iff_witness :
    (JobUpdate.mk (some JobStatus.completed) none (some 3)).completed_at ≠ none ↔
      (JobUpdate.mk (some JobStatus.completed) none (some 3)).status =
        some JobStatus.completed :=
  handler_completed_at_iff_completed (.ok []) 0 1 none 3
    ⟨some JobStatus.completed, none, some 3⟩ (by decide)

/-- Witness for C10: a full one-item page against a job already completed
leaves the row back in status processing. -/
theorem handler_processing_unguarded_witness :
    (handler (.ok [ItemOutcome.ok]) 0 1 none 9).updates.head? =
      some ⟨some JobStatus.processing, none, none⟩ ∧
    (applyUpdate
        { status := JobStatus.completed, processed_count := 4,
          completed_at := some 2 }
        ⟨some JobStatus.processing, none, none⟩).status =
      JobStatus.processing ∧
    ([ItemOutcome.ok].length = 1 →
      (applyUpdates
          { status := JobStatus.completed, processed_count := 4,
            completed_at := some 2 }
          (handler (.ok [ItemOutcome.ok]) 0 1 none 9).updates).status =
        JobStatus.processing ∧
      (applyUpdates
          { status := JobStatus.completed, processed_count := 4,
            completed_at := some 2 }
          (handler (.ok [ItemOutcome.ok]) 0 1 none 9).updates).status ≠
        JobStatus.completed) :=
  handler_processing_write_unguarded
    { status := JobStatus.completed, processed_count := 4,
      completed_at := some 2 }
    [ItemOutcome.ok] 0 1 none 9 (Or.inl rfl) (by decide)

end CloneSpec
